import Mathlib

/-!
A shallow embedding of `src/main.rs`: a minimal emulator bus connecting a
processing unit (`Cpu` wrapping `ExtCpu`), an interrupt peripheral (`Vdp`),
and a simple addressable peripheral (`Ppi`) through two mpsc channels that
`Bus::step` drains.

Modelling choices, all taken from the source:
* An mpsc channel is a FIFO list of messages; `Sender::send` appends at the
  tail, `Receiver::recv` takes the head and blocks while the list is empty.
  Every `Sender` clone in the program stays alive for the whole run (the
  `Bus` itself holds one of each), so `recv` never returns `Err`: a `recv`
  on an empty channel blocks.
* The program spawns no thread (`std::thread` is imported but never used),
  so the whole machine is one sequential execution.  Its control point is
  either at the top of the `Bus` arbitration loop, or suspended inside
  `Io::read`'s `response_receiver.recv()` during the dispatch of `CpuStep`
  (the only blocking call the program can make).  A blocked `recv` with the
  single thread suspended can never be fed, so a state with no successor is
  a permanent deadlock.
* `println!` tracing has no effect on channels or component state and is
  not modelled.
* `u8`/`u16` values are embedded as `Nat`; the program only ever moves the
  literals `0`, `1` and `0xfe` and applies no arithmetic to them.
-/

/-- The `Message` enum (main.rs lines 10-15): requests sent to the Bus.
`cpuStep` is the spec's `Step`, `readByte` its `ReadByte`,
`vdpEnableLineInterrupt` its `RaiseLineInterrupt`, and `cpuEnableInterrupt`
its `EnableInterrupt`.  The enum has no `WriteByte`, `PortRead` or
`PortWrite` variant. -/
inductive Message where
  | cpuStep
  | readByte (addr : Nat)
  | vdpEnableLineInterrupt
  | cpuEnableInterrupt
deriving DecidableEq

/-- The `Response` enum (main.rs lines 17-20): the one response shape. -/
inductive Response where
  | byteRead (data : Nat)
deriving DecidableEq

/-- `Sender::send` on a channel embedded as a FIFO list: the message is
appended at the tail. -/
def sendMsg (q : List Message) (m : Message) : List Message :=
  q ++ [m]

/-- `Ppi::read_byte` (main.rs lines 139-144): the stub peripheral returns
the fixed sentinel `0xfe` for every address. -/
def Ppi.read_byte (addr : Nat) : Nat :=
  0xfe

/-- `Vdp::enable_line_interrupt` (main.rs lines 155-161): sends
`CpuEnableInterrupt` on the request channel.  The `Vdp` struct holds only
its `request_sender`; there is no other peripheral-local state to read or
write, so the whole effect is this one append. -/
def Vdp.enable_line_interrupt (q : List Message) : List Message :=
  sendMsg q Message.cpuEnableInterrupt

/-- `Io::write_port` (main.rs lines 228-233): sends
`VdpEnableLineInterrupt` on the request channel.  The body never inspects
`port` or `data`: the send happens for every port. -/
def IoPort.write_port (port data : Nat) (q : List Message) : List Message :=
  sendMsg q Message.vdpEnableLineInterrupt

/-- `Io::read_port` (main.rs lines 223-226): the body is `todo!()`, which
panics with the message "not yet implemented".  The panic is embedded as an
`Except.error` carrying that message; no `Except.ok` value is ever
produced. -/
def IoPort.read_port (port : Nat) : Except String Nat :=
  Except.error "not yet implemented"

/-- Where the single thread's control sits between two atomic steps of the
machine. -/
inductive Control where
  /-- At the top of the `Bus::step` arbitration loop, about to `recv` on the
  request channel (main.rs lines 88-89). -/
  | busLoop
  /-- Suspended inside `Io::read`'s `response_receiver.recv()` (main.rs
  lines 211-212), reached from the dispatch of `CpuStep` through
  `Cpu::step` and `ExtCpu::step`; the pending read is `read(0)` and its
  continuation is the tail of `ExtCpu::step` (main.rs lines 177-179). -/
  | cpuAwaitingRead
deriving DecidableEq

/-- The machine state: the two channels' contents, the control point, and a
ghost log of the messages the Bus has dispatched so far, in dispatch order.
The log records, for each `Ok(message)` taken by the arbitration loop
(main.rs line 89), which message it was; it instruments the embedding and
feeds no decision in `busStep`. -/
structure State where
  queue : List Message
  resp : List Response
  control : Control
  dispatched : List Message
deriving DecidableEq

/-- `Io::write` (main.rs lines 219-221): the body is one `println!`; no
message is sent on either channel and no component state is touched, so the
machine state is returned unchanged. -/
def IoPort.write (addr data : Nat) (s : State) : State :=
  s

/-- One atomic step of the sequential machine; `none` when the thread is
blocked in a `recv` that nothing can ever feed (a permanent deadlock, since
there is no other thread).

From `Control.busLoop` (main.rs lines 88-108): with an empty request queue
the loop's `recv()` blocks; otherwise the head message is dispatched:
* `CpuStep` → `Cpu::step` → `ExtCpu::step` → `Io::read 0`, which sends
  `ReadByte(0)` and then blocks in `recv` on the response channel
  (main.rs lines 92-94 and 206-212);
* `ReadByte(addr)` → `Ppi::read_byte addr`, response sent on the response
  channel (main.rs lines 95-99);
* `VdpEnableLineInterrupt` → `Vdp::enable_line_interrupt` (lines 100-102);
* `CpuEnableInterrupt` → `Cpu::enable_interrupt` →
  `ExtCpu::enable_interrupt` → `Io::write_port 1 1` (lines 103-105 and
  182-185).

From `Control.cpuAwaitingRead` (main.rs lines 211-216 resuming lines
177-179): with an empty response channel the `recv` blocks; otherwise the
head response `ByteRead(d)` is consumed and `ExtCpu::step` resumes: when
`d == 0` it calls `Io::write_port 0 1`, then `Cpu::step` returns and
control is back at the top of the arbitration loop. -/
def busStep (s : State) : Option State :=
  match s.control with
  | Control.cpuAwaitingRead =>
    match s.resp with
    | [] => none
    | Response.byteRead d :: rs =>
      some { queue := if d == 0 then IoPort.write_port 0 1 s.queue else s.queue,
             resp := rs, control := Control.busLoop, dispatched := s.dispatched }
  | Control.busLoop =>
    match s.queue with
    | [] => none
    | m :: rest =>
      match m with
      | Message.cpuStep =>
        some { queue := sendMsg rest (Message.readByte 0), resp := s.resp,
               control := Control.cpuAwaitingRead,
               dispatched := s.dispatched ++ [m] }
      | Message.readByte addr =>
        some { queue := rest,
               resp := s.resp ++ [Response.byteRead (Ppi.read_byte addr)],
               control := Control.busLoop, dispatched := s.dispatched ++ [m] }
      | Message.vdpEnableLineInterrupt =>
        some { queue := Vdp.enable_line_interrupt rest, resp := s.resp,
               control := Control.busLoop, dispatched := s.dispatched ++ [m] }
      | Message.cpuEnableInterrupt =>
        some { queue := IoPort.write_port 1 1 rest, resp := s.resp,
               control := Control.busLoop, dispatched := s.dispatched ++ [m] }

/-- Runs `n` atomic steps; `none` as soon as the machine deadlocks. -/
def runN : Nat → State → Option State
  | 0, s => some s
  | n + 1, s => (busStep s).bind (runN n)

/-- The state right after `Machine::step` → `Bus::step` sends `CpuStep`
(main.rs lines 47-50 and 84-86): both channels were freshly created in
`Machine::new`, the one `CpuStep` is queued, control is at the top of the
arbitration loop, nothing dispatched yet. -/
def machineStepInit : State :=
  { queue := sendMsg [] Message.cpuStep, resp := [],
    control := Control.busLoop, dispatched := [] }

/-- The state the run of `Machine::step` deadlocks in: `CpuStep` was
dispatched, `Io::read 0` sent `ReadByte(0)` and blocked on the response
channel; the queued `ReadByte(0)` can only be served by the arbitration
loop, which is suspended lower in the same call stack. -/
def blockedState : State :=
  { queue := [Message.readByte 0], resp := [],
    control := Control.cpuAwaitingRead, dispatched := [Message.cpuStep] }

/-- The `ExtCpuIo` trait (main.rs lines 163-168) as a record of
state-passing operations over an abstract io-side state `σ`; `read_port`
may fail, as the Bus-backed implementation panics there. -/
structure ExtCpuIo (σ : Type) where
  read : Nat → σ → Nat × σ
  write : Nat → Nat → σ → σ
  read_port : Nat → σ → Except String Nat × σ
  write_port : Nat → Nat → σ → σ

/-- `ExtCpu::step` (main.rs lines 175-180), polymorphic over the capability
exactly as `impl<T: ExtCpuIo> ExtCpu<T>` is: `read(0)`, and when the result
equals `0`, `write_port(0, 1)`. -/
def ExtCpu.step {σ : Type} (c : ExtCpuIo σ) (s : σ) : σ :=
  let r := c.read 0 s
  if r.1 == 0 then c.write_port 0 1 r.2 else r.2

/-- `ExtCpu::enable_interrupt` (main.rs lines 182-185): `write_port(1, 1)`. -/
def ExtCpu.enable_interrupt {σ : Type} (c : ExtCpuIo σ) (s : σ) : σ :=
  c.write_port 1 1 s

/-- One call through the `ExtCpuIo` capability, with its arguments. -/
inductive IoCall where
  | read (addr : Nat)
  | write (addr data : Nat)
  | readPort (port : Nat)
  | writePort (port data : Nat)
deriving DecidableEq

/-- A recording test double for the `ExtCpuIo` capability (the trait is
explicitly meant to admit substitute implementations): every call is
appended to a log, and `read addr` returns `mem addr`. -/
def spyCap (mem : Nat → Nat) : ExtCpuIo (List IoCall) where
  read := fun addr log => (mem addr, log ++ [IoCall.read addr])
  write := fun addr data log => log ++ [IoCall.write addr data]
  read_port := fun port log =>
    (Except.error "not yet implemented", log ++ [IoCall.readPort port])
  write_port := fun port data log => log ++ [IoCall.writePort port data]

/-! ### Helper lemmas shared by several claims -/

/-- Any successful step extends the ghost dispatch log, and the history
`dispatched ++ queue` only ever grows at its tail: dispatching moves the
queue head into the log, and every send appends at the queue's tail. -/
theorem busStep_history (s s' : State) (h : busStep s = some s') :
    ∃ d es, s'.dispatched = s.dispatched ++ d ∧
      s'.dispatched ++ s'.queue = (s.dispatched ++ s.queue) ++ es := by
  obtain ⟨q, r, c, dl⟩ := s
  cases c with
  | cpuAwaitingRead =>
    cases r with
    | nil => simp [busStep] at h
    | cons hd tl =>
      obtain ⟨dval⟩ := hd
      injection h with h
      subst h
      refine ⟨[], if dval = 0 then [Message.vdpEnableLineInterrupt] else [],
        by simp, ?_⟩
      by_cases hz : dval = 0
      · simp [hz, IoPort.write_port, sendMsg]
      · simp [hz]
  | busLoop =>
    cases q with
    | nil => simp [busStep] at h
    | cons m rest =>
      cases m with
      | cpuStep =>
        injection h with h
        subst h
        exact ⟨[Message.cpuStep], [Message.readByte 0], rfl, by simp [sendMsg]⟩
      | readByte addr =>
        injection h with h
        subst h
        exact ⟨[Message.readByte addr], [], rfl, by simp⟩
      | vdpEnableLineInterrupt =>
        injection h with h
        subst h
        exact ⟨[Message.vdpEnableLineInterrupt], [Message.cpuEnableInterrupt],
          rfl, by simp [Vdp.enable_line_interrupt, sendMsg]⟩
      | cpuEnableInterrupt =>
        injection h with h
        subst h
        exact ⟨[Message.cpuEnableInterrupt], [Message.vdpEnableLineInterrupt],
          rfl, by simp [IoPort.write_port, sendMsg]⟩

/-- The history-extension property of `busStep_history`, along a whole run. -/
theorem runN_history (n : Nat) (s s' : State) (h : runN n s = some s') :
    ∃ d es, s'.dispatched = s.dispatched ++ d ∧
      s'.dispatched ++ s'.queue = (s.dispatched ++ s.queue) ++ es := by
  induction n generalizing s with
  | zero =>
    injection h with h
    subst h
    exact ⟨[], [], by simp, by simp⟩
  | succ k ih =>
    simp only [runN] at h
    cases hb : busStep s with
    | none => rw [hb] at h; simp at h
    | some s₁ =>
      rw [hb] at h
      simp only [Option.bind] at h
      obtain ⟨d₁, es₁, hd₁, he₁⟩ := busStep_history s s₁ hb
      obtain ⟨d₂, es₂, hd₂, he₂⟩ := ih s₁ h
      refine ⟨d₁ ++ d₂, es₁ ++ es₂, ?_, ?_⟩
      · rw [hd₂, hd₁, List.append_assoc]
      · rw [he₂, he₁, List.append_assoc]

/-- When two list concatenations agree and the second left part is no
longer than the first, the first left part begins with the second. -/
theorem eq_append_of_append_eq {α : Type} (c : List α) :
    ∀ a b e : List α, a ++ b = c ++ e → c.length ≤ a.length →
      ∃ t, a = c ++ t := by
  induction c with
  | nil => exact fun a b e h hl => ⟨a, rfl⟩
  | cons x c' ih =>
    intro a b e h hl
    cases a with
    | nil => simp at hl
    | cons y a' =>
      simp only [List.cons_append, List.cons.injEq] at h
      obtain ⟨rfl, h'⟩ := h
      obtain ⟨t, ht⟩ := ih a' b e h' (by simp at hl; omega)
      exact ⟨t, by simp [ht]⟩

/-- An interrupt request (`RaiseLineInterrupt` or `EnableInterrupt`) sits
in the request queue. -/
def intPending (s : State) : Prop :=
  Message.vdpEnableLineInterrupt ∈ s.queue ∨
    Message.cpuEnableInterrupt ∈ s.queue

/-- Every dispatch arm either keeps a pending interrupt request queued or
enqueues the next request of the interrupt cycle, so `intPending` is
preserved by every step. -/
theorem intPending_busStep (s s' : State) (h : busStep s = some s')
    (hp : intPending s) : intPending s' := by
  obtain ⟨q, r, c, dl⟩ := s
  cases c with
  | cpuAwaitingRead =>
    cases r with
    | nil => simp [busStep] at h
    | cons hd tl =>
      obtain ⟨dval⟩ := hd
      injection h with h
      subst h
      rcases hp with hp | hp <;> by_cases hz : dval = 0 <;>
        simp_all [intPending, IoPort.write_port, sendMsg]
  | busLoop =>
    cases q with
    | nil => simp [busStep] at h
    | cons m rest =>
      cases m with
      | cpuStep =>
        injection h with h
        subst h
        rcases hp with hp | hp <;> simp_all [intPending, sendMsg]
      | readByte addr =>
        injection h with h
        subst h
        rcases hp with hp | hp <;> simp_all [intPending]
      | vdpEnableLineInterrupt =>
        injection h with h
        subst h
        exact Or.inr (by simp [Vdp.enable_line_interrupt, sendMsg])
      | cpuEnableInterrupt =>
        injection h with h
        subst h
        exact Or.inl (by simp [IoPort.write_port, sendMsg])

/-- `intPending` is preserved along a whole run. -/
theorem intPending_runN (n : Nat) (s s' : State) (h : runN n s = some s')
    (hp : intPending s) : intPending s' := by
  induction n generalizing s with
  | zero =>
    injection h with h
    subst h
    exact hp
  | succ k ih =>
    simp only [runN] at h
    cases hb : busStep s with
    | none => rw [hb] at h; simp at h
    | some s₁ =>
      rw [hb] at h
      simp only [Option.bind] at h
      exact ih s₁ h (intPending_busStep s s₁ hb hp)

/-! ### The claims -/

/-- C1: false of the code.  In the one run of the arbitration loop that
dispatches a Step request (the program's own `Machine::step`), the
synchronous `read(0)` never resolves: dispatching `CpuStep` leaves the
single thread suspended inside the read's `recv` with `ReadByte(0)` still
queued, and that state has no successor, so no `Response` value is ever
returned to the read and `step()` never returns. -/
theorem cpu_read_never_resolves :
    busStep machineStepInit = some blockedState ∧
    blockedState.control = Control.cpuAwaitingRead ∧
    blockedState.queue = [Message.readByte 0] ∧
    blockedState.resp = [] ∧
    busStep blockedState = none :=
  ⟨rfl, rfl, rfl, rfl, rfl⟩

/-- C2: false of the code.  `Bus::step` enqueues `Step` and enters a loop
with no exit; on the stub peripheral the run reaches, after one dispatch,
a state whose request queue still holds `ReadByte(0)` and from which no
step exists — every longer run is `none` — so `step()` never completes,
let alone with an empty queue. -/
theorem bus_step_never_terminates :
    runN 1 machineStepInit = some blockedState ∧
    blockedState.queue = [Message.readByte 0] ∧
    ∀ n : Nat, runN (n + 2) machineStepInit = none :=
  ⟨rfl, rfl, fun n => rfl⟩

/-- C3: every successful step of the arbitration loop either dispatches
exactly the head of the request queue — appending it to the dispatch log,
with any side-effect requests appended at the tail behind the remaining
queue — or (resuming the blocked cpu read) dispatches nothing and only
appends at the tail; so dispatch order is exactly FIFO submission order
and nothing is ever dispatched ahead of requests already queued. -/
theorem fifo_dispatch_order (s s' : State) (h : busStep s = some s') :
    (∃ m t es, s.queue = m :: t ∧
      s'.dispatched = s.dispatched ++ [m] ∧ s'.queue = t ++ es) ∨
    (s.control = Control.cpuAwaitingRead ∧
      s'.dispatched = s.dispatched ∧ ∃ es, s'.queue = s.queue ++ es) := by
  obtain ⟨q, r, c, dl⟩ := s
  cases c with
  | cpuAwaitingRead =>
    cases r with
    | nil => simp [busStep] at h
    | cons hd tl =>
      obtain ⟨dval⟩ := hd
      injection h with h
      subst h
      refine Or.inr ⟨rfl, rfl, ?_⟩
      by_cases hz : dval = 0
      · exact ⟨[Message.vdpEnableLineInterrupt],
          by simp [hz, IoPort.write_port, sendMsg]⟩
      · exact ⟨[], by simp [hz]⟩
  | busLoop =>
    cases q with
    | nil => simp [busStep] at h
    | cons m rest =>
      cases m with
      | cpuStep =>
        injection h with h
        subst h
        exact Or.inl ⟨Message.cpuStep, rest, [Message.readByte 0], rfl, rfl,
          by simp [sendMsg]⟩
      | readByte addr =>
        injection h with h
        subst h
        exact Or.inl ⟨Message.readByte addr, rest, [], rfl, rfl, by simp⟩
      | vdpEnableLineInterrupt =>
        injection h with h
        subst h
        exact Or.inl ⟨Message.vdpEnableLineInterrupt, rest,
          [Message.cpuEnableInterrupt], rfl, rfl,
          by simp [Vdp.enable_line_interrupt, sendMsg]⟩
      | cpuEnableInterrupt =>
        injection h with h
        subst h
        exact Or.inl ⟨Message.cpuEnableInterrupt, rest,
          [Message.vdpEnableLineInterrupt], rfl, rfl,
          by simp [IoPort.write_port, sendMsg]⟩

/-- Witness for C3 at the concrete dispatch `Machine::step` performs. -/
theorem fifo_dispatch_order_witness :
    busStep machineStepInit = some blockedState ∧
    ((∃ m t es, machineStepInit.queue = m :: t ∧
        blockedState.dispatched = machineStepInit.dispatched ++ [m] ∧
        blockedState.queue = t ++ es) ∨
      (machineStepInit.control = Control.cpuAwaitingRead ∧
        blockedState.dispatched = machineStepInit.dispatched ∧
        ∃ es, blockedState.queue = machineStepInit.queue ++ es)) :=
  ⟨rfl, fifo_dispatch_order machineStepInit blockedState rfl⟩

/-- C4: run against a recording capability, `ExtCpu::step` emits exactly
the call trace `read(0)` followed by `write_port(0, 1)` precisely when the
read's result equals `0` — so one read, a port write if and only if the
read resolved to zero, one at most, and no other calls. -/
theorem ext_cpu_step_trace (mem : Nat → Nat) (log : List IoCall) :
    ExtCpu.step (spyCap mem) log =
      log ++ [IoCall.read 0] ++
        (if mem 0 = 0 then [IoCall.writePort 0 1] else []) := by
  by_cases h : mem 0 = 0 <;>
    simp [ExtCpu.step, spyCap, h]

/-- C5 counterexample: `write_port` on the nonzero port `1` is not a
no-op — starting from an empty request queue it enqueues
`VdpEnableLineInterrupt` (the spec's `RaiseLineInterrupt`). -/
theorem write_port_nonzero_port_sends :
    IoPort.write_port 1 1 [] = [Message.vdpEnableLineInterrupt] ∧
    IoPort.write_port 1 1 [] ≠ ([] : List Message) :=
  ⟨rfl, by decide⟩

/-- C5 amended: for every port and data value, `Io::write_port` enqueues
exactly one `RaiseLineInterrupt` request at the tail of the queue — the
body never inspects the port, so no port is a no-op. -/
theorem write_port_always_raises (port data : Nat) (q : List Message) :
    IoPort.write_port port data q = q ++ [Message.vdpEnableLineInterrupt] :=
  rfl

/-- C6: dispatching `RaiseLineInterrupt` runs `Vdp::enable_line_interrupt`,
which appends exactly one `EnableInterrupt` at the tail of the request
queue and touches nothing else (the `Vdp` carries no local state; the
response channel and control point are unchanged); and along any
continuing run, the requests dispatched past that point must begin with
every request that was queued ahead of the `EnableInterrupt` before the
`EnableInterrupt` itself — whose dispatch is what invokes
`Cpu::enable_interrupt` — can be dispatched. -/
theorem enable_line_interrupt_forwarded (rest : List Message)
    (r : List Response) (dl : List Message) :
    busStep ⟨Message.vdpEnableLineInterrupt :: rest, r, Control.busLoop, dl⟩ =
      some ⟨rest ++ [Message.cpuEnableInterrupt], r, Control.busLoop,
        dl ++ [Message.vdpEnableLineInterrupt]⟩ ∧
    ∀ (n : Nat) (s'' : State) (d : List Message),
      runN n ⟨rest ++ [Message.cpuEnableInterrupt], r, Control.busLoop,
        dl ++ [Message.vdpEnableLineInterrupt]⟩ = some s'' →
      s''.dispatched = (dl ++ [Message.vdpEnableLineInterrupt]) ++ d →
      rest.length + 1 ≤ d.length →
      ∃ t, d = (rest ++ [Message.cpuEnableInterrupt]) ++ t := by
  refine ⟨rfl, ?_⟩
  intro n s'' d hrun hdisp hlen
  obtain ⟨d₀, es, _, he⟩ := runN_history n _ s'' hrun
  have hcat : (dl ++ [Message.vdpEnableLineInterrupt]) ++ (d ++ s''.queue) =
      (dl ++ [Message.vdpEnableLineInterrupt]) ++
        ((rest ++ [Message.cpuEnableInterrupt]) ++ es) := by
    rw [← List.append_assoc, ← hdisp, he, List.append_assoc]
  have hde := List.append_cancel_left hcat
  exact eq_append_of_append_eq _ d s''.queue es hde (by simp; omega)

/-- C7: dispatching `ReadByte(addr)` for any 16-bit address reads the stub
peripheral, whose answer is the fixed sentinel `0xfe`, and sends exactly
the response `ByteRead(0xfe)` on the response channel. -/
theorem read_byte_yields_sentinel (addr : Nat) (rest : List Message)
    (r : List Response) (dl : List Message) (haddr : addr < 65536) :
    Ppi.read_byte addr = 0xfe ∧
    busStep ⟨Message.readByte addr :: rest, r, Control.busLoop, dl⟩ =
      some ⟨rest, r ++ [Response.byteRead 0xfe], Control.busLoop,
        dl ++ [Message.readByte addr]⟩ :=
  ⟨rfl, rfl⟩

/-- Witness for C7 at address 0, the one address the program uses. -/
theorem read_byte_yields_sentinel_witness :
    (0 : Nat) < 65536 ∧
    (Ppi.read_byte 0 = 0xfe ∧
      busStep ⟨[Message.readByte 0], [], Control.busLoop, []⟩ =
        some ⟨[], [Response.byteRead 0xfe], Control.busLoop,
          [Message.readByte 0]⟩) :=
  ⟨by decide, read_byte_yields_sentinel 0 [] [] [] (by decide)⟩

/-- C8: `Io::read_port` fails for every port with the explicit panic
signal of `todo!()` — it never produces a value, so in particular its
outcome is distinguishable from a legitimate zero-valued response. -/
theorem read_port_fails_loudly (port : Nat) :
    IoPort.read_port port = Except.error ("not yet implemented") ∧
    ∀ d : Nat, IoPort.read_port port ≠ Except.ok d :=
  ⟨rfl, fun d h => Except.noConfusion h⟩

/-- C9: `ExtCpu::enable_interrupt` emits exactly the call
`write_port(1, 1)`; `Io::write_port 1 1` enqueues one
`RaiseLineInterrupt`; dispatching `EnableInterrupt` therefore enqueues
another `RaiseLineInterrupt`; and once an `EnableInterrupt` is in the
queue, the queue stays non-empty in every subsequently reachable state —
the interrupt path is an unbounded request cycle. -/
theorem interrupt_request_cycle :
    (∀ (mem : Nat → Nat) (log : List IoCall),
      ExtCpu.enable_interrupt (spyCap mem) log =
        log ++ [IoCall.writePort 1 1]) ∧
    (∀ q : List Message,
      IoPort.write_port 1 1 q = q ++ [Message.vdpEnableLineInterrupt]) ∧
    (∀ (rest : List Message) (r : List Response) (dl : List Message),
      busStep ⟨Message.cpuEnableInterrupt :: rest, r, Control.busLoop, dl⟩ =
        some ⟨rest ++ [Message.vdpEnableLineInterrupt], r, Control.busLoop,
          dl ++ [Message.cpuEnableInterrupt]⟩) ∧
    (∀ (n : Nat) (s s' : State),
      Message.cpuEnableInterrupt ∈ s.queue → runN n s = some s' →
      1 ≤ s'.queue.length) := by
  refine ⟨fun mem log => rfl, fun q => rfl, fun rest r dl => rfl, ?_⟩
  intro n s s' hm hrun
  have hp := intPending_runN n s s' hrun (Or.inr hm)
  rcases hp with hp | hp <;> exact List.length_pos_of_mem hp

/-- C10: the ProcessingUnit-facing `Io::write` leaves the whole machine
state — request queue, response channel, control point and dispatch log —
unchanged, for every address and data value. -/
theorem write_changes_nothing (addr data : Nat) (s : State) :
    IoPort.write addr data s = s ∧
    (IoPort.write addr data s).queue = s.queue ∧
    (IoPort.write addr data s).resp = s.resp ∧
    (IoPort.write addr data s).control = s.control :=
  ⟨rfl, rfl, rfl, rfl⟩
